import Mathlib

/-!
Verification of the warehouse capacity-accounting core
(`src/warehouse.py`, class `Warehouse`, extending the `Varasto` ledger).

Quantities are Python floats in the reference implementation; the spec
describes them as real numbers with exact arithmetic, so they are embedded
as rationals (`ℚ`).  The Python `dict` `items` is embedded as an
association list `List (String × ℚ)`; dictionary states are exactly the
lists whose keys are pairwise distinct (`Nodup`).

The ledger base class `Varasto` is referenced by the source
(`from varasto import Varasto`) but its file is not part of the sources;
its operations are modelled from the spec, §4.1 (CapacityLedger).

Error kinds are reported by the code as message strings:
`"Quantity must be positive"` is the spec's `InvalidArgument`,
`"Not enough space in warehouse"` is `CapacityExceeded`,
`"Not enough items to remove"` is `InsufficientStock`, and
`"Item not found"` is `NotFound`.
-/

/-- Modelled from the spec: `CapacityLedger.free_space` / `Varasto.paljonko_mahtuu`
(missing file `varasto.py`): returns `capacity - occupied`, no side effects. -/
def paljonko_mahtuu_ledger (tilavuus saldo : ℚ) : ℚ := tilavuus - saldo

/-- Modelled from the spec: `CapacityLedger.reserve` / `Varasto.lisaa_varastoon`
(missing file `varasto.py`): adds `amount` to `occupied`; fails (leaving the
ledger unchanged, per the spec's no-partial-effect policy; the caller in
`warehouse.py` discards the ledger's result) when `amount ≤ 0`
(`InvalidArgument`) or `amount > free_space()` (`CapacityExceeded`). -/
def lisaa_varastoon (tilavuus saldo amount : ℚ) : ℚ :=
  if amount ≤ 0 then saldo
  else if amount > paljonko_mahtuu_ledger tilavuus saldo then saldo
  else saldo + amount

/-- Modelled from the spec: `CapacityLedger.release` / `Varasto.ota_varastosta`
(missing file `varasto.py`): subtracts `amount` from `occupied`; fails (leaving
the ledger unchanged, per the spec's no-partial-effect policy; the caller in
`warehouse.py` discards the ledger's result) when `amount ≤ 0`
(`InvalidArgument`) or `amount > occupied` (`InsufficientStock`). -/
def ota_varastosta (saldo amount : ℚ) : ℚ :=
  if amount ≤ 0 then saldo
  else if amount > saldo then saldo
  else saldo - amount

/-- Python dict lookup `items[item_name]` / membership `item_name in items`
on the association-list embedding (first matching key). -/
def lookupItem : List (String × ℚ) → String → Option ℚ
  | [], _ => none
  | (k, v) :: rest, n => if k = n then some v else lookupItem rest n

/-- The items update of `Warehouse.add_item` (warehouse.py lines 25-28):
`if item_name in self.items: self.items[item_name] += quantity
 else: self.items[item_name] = quantity`. -/
def upsertItem : List (String × ℚ) → String → ℚ → List (String × ℚ)
  | [], n, q => [(n, q)]
  | (k, v) :: rest, n, q =>
      if k = n then (k, v + q) :: rest else (k, v) :: upsertItem rest n q

/-- The items update of `Warehouse.remove_item` (warehouse.py lines 53-55):
`self.items[item_name] -= quantity;
 if self.items[item_name] == 0: del self.items[item_name]`. -/
def removeQty : List (String × ℚ) → String → ℚ → List (String × ℚ)
  | [], _, _ => []
  | (k, v) :: rest, n, q =>
      if k = n then (if v - q = 0 then rest else (k, v - q) :: rest)
      else (k, v) :: removeQty rest n q

/-- `sum(items.values())`. -/
def itemsTotal (items : List (String × ℚ)) : ℚ := (items.map Prod.snd).sum

/-- The keys of the items mapping. -/
def itemKeys (items : List (String × ℚ)) : List String := items.map Prod.fst

/-- Every stored quantity is strictly positive (spec data-model invariant). -/
def AllPos (items : List (String × ℚ)) : Prop := ∀ p ∈ items, 0 < p.2

instance : DecidablePred AllPos := fun items =>
  decidable_of_iff (∀ p ∈ items, 0 < p.2) Iff.rfl

/-- State of `class Warehouse(Varasto)` (warehouse.py lines 5-11): the inherited
ledger fields `tilavuus` (capacity) and `saldo` (occupied) plus `name` and the
`items` mapping. -/
structure Warehouse where
  name : String
  tilavuus : ℚ
  saldo : ℚ
  items : List (String × ℚ)
deriving DecidableEq, Repr

/-- `Varasto.paljonko_mahtuu` as inherited by `Warehouse`. -/
def Warehouse.paljonko_mahtuu (w : Warehouse) : ℚ :=
  paljonko_mahtuu_ledger w.tilavuus w.saldo

/-- `Warehouse.add_item` (warehouse.py lines 13-29).  The result is the state
after the call, the returned success flag, and the returned error message. -/
def Warehouse.add_item (w : Warehouse) (item_name : String) (quantity : ℚ) :
    Warehouse × Bool × Option String :=
  if quantity ≤ 0 then (w, false, some "Quantity must be positive")
  else if quantity > w.paljonko_mahtuu then
    (w, false, some "Not enough space in warehouse")
  else
    ({ w with saldo := lisaa_varastoon w.tilavuus w.saldo quantity,
              items := upsertItem w.items item_name quantity },
     true, none)

/-- `Warehouse.remove_item` (warehouse.py lines 31-56).  `quantity = none`
embeds Python's `quantity=None` default. -/
def Warehouse.remove_item (w : Warehouse) (item_name : String)
    (quantity : Option ℚ) : Warehouse × Bool × Option String :=
  match lookupItem w.items item_name with
  | none => (w, false, some "Item not found")
  | some current =>
      if quantity.getD current ≤ 0 then (w, false, some "Quantity must be positive")
      else if quantity.getD current > current then
        (w, false, some "Not enough items to remove")
      else
        ({ w with saldo := ota_varastosta w.saldo (quantity.getD current),
                  items := removeQty w.items item_name (quantity.getD current) },
         true, none)

/-- `Warehouse.get_item_count` (warehouse.py lines 58-60). -/
def Warehouse.get_item_count (w : Warehouse) : Nat := w.items.length

/-- `Warehouse.get_space_left_percent` (warehouse.py lines 62-66). -/
def Warehouse.get_space_left_percent (w : Warehouse) : ℚ :=
  if w.tilavuus = 0 then 0 else (w.paljonko_mahtuu / w.tilavuus) * 100

/-- The spec's wording of `space_left_percent` (§4.2): `0` if `capacity == 0`;
otherwise `(free_space() / capacity) * 100` with `free = capacity - occupied`. -/
def space_left_percent_spec (w : Warehouse) : ℚ :=
  if w.tilavuus = 0 then 0 else (w.tilavuus - w.saldo) / w.tilavuus * 100

/-- Well-formed warehouse states: the states satisfying the spec's data-model
invariants (§3), together with distinctness of the association-list keys
(automatic for a Python `dict`). -/
def WF (w : Warehouse) : Prop :=
  (itemKeys w.items).Nodup ∧ AllPos w.items ∧
    itemsTotal w.items = w.saldo ∧ 0 ≤ w.saldo ∧ w.saldo ≤ w.tilavuus

instance (w : Warehouse) : Decidable (WF w) :=
  decidable_of_iff
    ((itemKeys w.items).Nodup ∧ AllPos w.items ∧
      itemsTotal w.items = w.saldo ∧ 0 ≤ w.saldo ∧ w.saldo ≤ w.tilavuus)
    Iff.rfl

/-- States reachable from a freshly created warehouse (`Warehouse.__init__`
with the default `alku_saldo = 0` and a positive capacity, as the spec's
`create` requires and as `app.py` guarantees) by any sequence of `add_item`
and `remove_item` calls, successful or failed. -/
inductive Reachable : Warehouse → Prop
  | init (name : String) (tilavuus : ℚ) (h : 0 < tilavuus) :
      Reachable ⟨name, tilavuus, 0, []⟩
  | add (w : Warehouse) (n : String) (q : ℚ) (h : Reachable w) :
      Reachable (w.add_item n q).1
  | remove (w : Warehouse) (n : String) (q : Option ℚ) (h : Reachable w) :
      Reachable (w.remove_item n q).1

/-! ### Association-list lemmas -/

theorem itemKeys_cons (k : String) (v : ℚ) (rest : List (String × ℚ)) :
    itemKeys ((k, v) :: rest) = k :: itemKeys rest := rfl

theorem lookupItem_eq_none_of_not_mem (items : List (String × ℚ)) (n : String)
    (h : n ∉ itemKeys items) : lookupItem items n = none := by
  induction items with
  | nil => rfl
  | cons p rest ih =>
      obtain ⟨k, v⟩ := p
      rw [itemKeys_cons] at h
      have hne : k ≠ n := by
        rintro rfl
        exact h (List.mem_cons_self k _)
      have hrest : n ∉ itemKeys rest := fun hm => h (List.mem_cons_of_mem _ hm)
      simp only [lookupItem, if_neg hne]
      exact ih hrest

theorem itemsTotal_upsert (items : List (String × ℚ)) (n : String) (q : ℚ) :
    itemsTotal (upsertItem items n q) = itemsTotal items + q := by
  induction items with
  | nil => simp [upsertItem, itemsTotal]
  | cons p rest ih =>
      obtain ⟨k, v⟩ := p
      by_cases hk : k = n
      · simp [upsertItem, hk, itemsTotal]
        ring
      · simp [upsertItem, hk, itemsTotal] at ih ⊢
        rw [ih]
        ring

theorem lookupItem_upsert_self (items : List (String × ℚ)) (n : String) (q : ℚ) :
    lookupItem (upsertItem items n q) n = some ((lookupItem items n).getD 0 + q) := by
  induction items with
  | nil => simp [upsertItem, lookupItem]
  | cons p rest ih =>
      obtain ⟨k, v⟩ := p
      by_cases hk : k = n
      · simp [upsertItem, hk, lookupItem]
      · simp [upsertItem, hk, lookupItem, ih]

theorem mem_keys_upsert (items : List (String × ℚ)) (n m : String) (q : ℚ)
    (h : m ∈ itemKeys (upsertItem items n q)) : m ∈ itemKeys items ∨ m = n := by
  induction items with
  | nil =>
      refine Or.inr ?_
      have hrw : itemKeys (upsertItem ([] : List (String × ℚ)) n q) = [n] := rfl
      rw [hrw] at h
      exact List.mem_singleton.mp h
  | cons p rest ih =>
      obtain ⟨k, v⟩ := p
      by_cases hk : k = n
      · simp only [upsertItem, if_pos hk] at h
        rw [itemKeys_cons] at h ⊢
        exact Or.inl h
      · simp only [upsertItem, if_neg hk] at h
        rw [itemKeys_cons] at h
        rw [itemKeys_cons]
        rcases List.mem_cons.mp h with h | h
        · exact Or.inl (List.mem_cons.mpr (Or.inl h))
        · rcases ih h with h' | h'
          · exact Or.inl (List.mem_cons.mpr (Or.inr h'))
          · exact Or.inr h'

theorem nodup_upsert (items : List (String × ℚ)) (n : String) (q : ℚ)
    (h : (itemKeys items).Nodup) : (itemKeys (upsertItem items n q)).Nodup := by
  induction items with
  | nil => simp [upsertItem, itemKeys]
  | cons p rest ih =>
      obtain ⟨k, v⟩ := p
      simp only [itemKeys, List.map_cons, List.nodup_cons] at h
      by_cases hk : k = n
      · simp only [upsertItem, if_pos hk, itemKeys, List.map_cons, List.nodup_cons]
        exact ⟨by simpa [itemKeys] using h.1, by simpa [itemKeys] using h.2⟩
      · simp only [upsertItem, if_neg hk, itemKeys, List.map_cons, List.nodup_cons]
        refine ⟨fun hmem => ?_, ih (by simpa [itemKeys] using h.2)⟩
        rcases mem_keys_upsert rest n k q (by simpa [itemKeys] using hmem) with h' | h'
        · exact h.1 (by simpa [itemKeys] using h')
        · exact hk h'

theorem allPos_upsert (items : List (String × ℚ)) (n : String) (q : ℚ)
    (h : AllPos items) (hq : 0 < q) : AllPos (upsertItem items n q) := by
  induction items with
  | nil => simpa [upsertItem, AllPos] using hq
  | cons p rest ih =>
      obtain ⟨k, v⟩ := p
      simp only [AllPos, List.mem_cons] at h
      have hv : 0 < v := h (k, v) (Or.inl rfl)
      have hrest : AllPos rest := fun p hp => h p (Or.inr hp)
      by_cases hk : k = n
      · simp only [upsertItem, if_pos hk, AllPos, List.mem_cons]
        rintro p (rfl | hp)
        · exact add_pos hv hq
        · exact hrest p hp
      · simp only [upsertItem, if_neg hk, AllPos, List.mem_cons]
        rintro p (rfl | hp)
        · exact hv
        · exact ih hrest p hp

theorem itemsTotal_removeQty (items : List (String × ℚ)) (n : String) (q v : ℚ)
    (h : lookupItem items n = some v) :
    itemsTotal (removeQty items n q) = itemsTotal items - q := by
  induction items with
  | nil => simp [lookupItem] at h
  | cons p rest ih =>
      obtain ⟨k, u⟩ := p
      by_cases hk : k = n
      · simp only [lookupItem, if_pos hk] at h
        by_cases hz : u - q = 0
        · have : u = q := by linarith [sub_eq_zero.mp hz]
          simp [removeQty, hk, hz, itemsTotal, this]
        · simp [removeQty, hk, hz, itemsTotal]
          ring
      · simp only [lookupItem, if_neg hk] at h
        simp only [removeQty, if_neg hk, itemsTotal, List.map_cons, List.sum_cons] at ih ⊢
        rw [ih h]
        ring

theorem allPos_removeQty (items : List (String × ℚ)) (n : String) (q v : ℚ)
    (h : AllPos items) (hl : lookupItem items n = some v) (hq : q ≤ v) :
    AllPos (removeQty items n q) := by
  induction items with
  | nil => simp [removeQty, AllPos]
  | cons p rest ih =>
      obtain ⟨k, u⟩ := p
      simp only [AllPos, List.mem_cons] at h
      have hu : 0 < u := h (k, u) (Or.inl rfl)
      have hrest : AllPos rest := fun p hp => h p (Or.inr hp)
      by_cases hk : k = n
      · simp only [lookupItem, if_pos hk, Option.some_inj] at hl
        subst hl
        by_cases hz : u - q = 0
        · simpa [removeQty, hk, hz, AllPos] using hrest
        · simp only [removeQty, if_pos hk, if_neg hz, AllPos, List.mem_cons]
          rintro p (rfl | hp)
          · have : 0 ≤ u - q := by linarith
            exact lt_of_le_of_ne this (fun heq => hz heq.symm)
          · exact hrest p hp
      · simp only [lookupItem, if_neg hk] at hl
        simp only [removeQty, if_neg hk, AllPos, List.mem_cons]
        rintro p (rfl | hp)
        · exact hu
        · exact ih hrest hl p hp

theorem mem_keys_removeQty (items : List (String × ℚ)) (n m : String) (q : ℚ)
    (h : m ∈ itemKeys (removeQty items n q)) : m ∈ itemKeys items := by
  induction items with
  | nil => simpa [removeQty] using h
  | cons p rest ih =>
      obtain ⟨k, v⟩ := p
      by_cases hk : k = n
      · by_cases hz : v - q = 0
        · simp only [removeQty, if_pos hk, if_pos hz] at h
          simp only [itemKeys, List.map_cons, List.mem_cons]
          exact Or.inr (by simpa [itemKeys] using h)
        · simp only [removeQty, if_pos hk, if_neg hz, itemKeys, List.map_cons,
            List.mem_cons] at h ⊢
          exact h
      · simp only [removeQty, if_neg hk, itemKeys, List.map_cons, List.mem_cons] at h ⊢
        rcases h with h | h
        · exact Or.inl h
        · exact Or.inr (ih (by simpa [itemKeys] using h))

theorem nodup_removeQty (items : List (String × ℚ)) (n : String) (q : ℚ)
    (h : (itemKeys items).Nodup) : (itemKeys (removeQty items n q)).Nodup := by
  induction items with
  | nil => simpa [removeQty] using h
  | cons p rest ih =>
      obtain ⟨k, v⟩ := p
      simp only [itemKeys, List.map_cons, List.nodup_cons] at h
      by_cases hk : k = n
      · by_cases hz : v - q = 0
        · simpa [removeQty, hk, hz, itemKeys] using h.2
        · simp only [removeQty, if_pos hk, if_neg hz, itemKeys, List.map_cons,
            List.nodup_cons]
          exact ⟨by simpa [itemKeys] using h.1, by simpa [itemKeys] using h.2⟩
      · simp only [removeQty, if_neg hk, itemKeys, List.map_cons, List.nodup_cons]
        refine ⟨fun hmem => ?_, ih (by simpa [itemKeys] using h.2)⟩
        exact h.1 (by simpa [itemKeys] using
          mem_keys_removeQty rest n k q (by simpa [itemKeys] using hmem))

theorem lookup_removeQty_all (items : List (String × ℚ)) (n : String) (v : ℚ)
    (hnd : (itemKeys items).Nodup) (hl : lookupItem items n = some v) :
    lookupItem (removeQty items n v) n = none := by
  induction items with
  | nil => simp [lookupItem] at hl
  | cons p rest ih =>
      obtain ⟨k, u⟩ := p
      simp only [itemKeys, List.map_cons, List.nodup_cons] at hnd
      by_cases hk : k = n
      · simp only [lookupItem, if_pos hk, Option.some_inj] at hl
        subst hl
        simp only [removeQty, if_pos hk, sub_self, if_pos rfl]
        apply lookupItem_eq_none_of_not_mem
        intro hmem
        exact hnd.1 (hk ▸ hmem)
      · simp only [lookupItem, if_neg hk] at hl
        simp only [removeQty, if_neg hk, lookupItem, if_neg hk]
        exact ih (by simpa [itemKeys] using hnd.2) hl

theorem itemsTotal_nonneg (items : List (String × ℚ)) (h : AllPos items) :
    0 ≤ itemsTotal items := by
  induction items with
  | nil => simp [itemsTotal]
  | cons p rest ih =>
      simp only [AllPos, List.mem_cons] at h
      have hp : 0 < p.2 := h p (Or.inl rfl)
      have := ih (fun p hp => h p (Or.inr hp))
      obtain ⟨k, v⟩ := p
      simp only [itemsTotal, List.map_cons, List.sum_cons]
      simp only at hp
      have := this
      simp only [itemsTotal] at this
      linarith

theorem lookup_le_total (items : List (String × ℚ)) (n : String) (v : ℚ)
    (h : AllPos items) (hl : lookupItem items n = some v) : v ≤ itemsTotal items := by
  induction items with
  | nil => simp [lookupItem] at hl
  | cons p rest ih =>
      obtain ⟨k, u⟩ := p
      simp only [AllPos, List.mem_cons] at h
      have hu : 0 < u := h (k, u) (Or.inl rfl)
      have hrest : AllPos rest := fun p hp => h p (Or.inr hp)
      have htot : 0 ≤ itemsTotal rest := itemsTotal_nonneg rest hrest
      by_cases hk : k = n
      · simp only [lookupItem, if_pos hk, Option.some_inj] at hl
        subst hl
        simp only [itemsTotal, List.map_cons, List.sum_cons]
        simp only [itemsTotal] at htot
        linarith
      · simp only [lookupItem, if_neg hk] at hl
        have := ih hrest hl
        simp only [itemsTotal, List.map_cons, List.sum_cons]
        simp only [itemsTotal] at this
        linarith

theorem removeQty_upsert_cancel (items : List (String × ℚ)) (n : String) (q : ℚ)
    (h : ∀ p ∈ items, p.2 ≠ 0) : removeQty (upsertItem items n q) n q = items := by
  induction items with
  | nil => simp [upsertItem, removeQty]
  | cons p rest ih =>
      obtain ⟨k, v⟩ := p
      simp only [List.mem_cons] at h
      have hv : v ≠ 0 := h (k, v) (Or.inl rfl)
      have hrest : ∀ p ∈ rest, p.2 ≠ 0 := fun p hp => h p (Or.inr hp)
      by_cases hk : k = n
      · have : v + q - q = v := by ring
        simp [upsertItem, hk, removeQty, this, hv]
      · simp [upsertItem, hk, removeQty, ih hrest]

theorem lookupItem_mem (items : List (String × ℚ)) (n : String) (v : ℚ)
    (hl : lookupItem items n = some v) : (n, v) ∈ items := by
  induction items with
  | nil => simp [lookupItem] at hl
  | cons p rest ih =>
      obtain ⟨k, u⟩ := p
      by_cases hk : k = n
      · simp only [lookupItem, if_pos hk, Option.some_inj] at hl
        subst hk
        subst hl
        exact List.mem_cons_self _ _
      · simp only [lookupItem, if_neg hk] at hl
        exact List.mem_cons_of_mem _ (ih hl)

/-! ### Invariant preservation -/

theorem WF_def (w : Warehouse) :
    WF w ↔ ((itemKeys w.items).Nodup ∧ AllPos w.items ∧
      itemsTotal w.items = w.saldo ∧ 0 ≤ w.saldo ∧ w.saldo ≤ w.tilavuus) := Iff.rfl

theorem add_item_fail_eq (w : Warehouse) (n : String) (q : ℚ)
    (h : (w.add_item n q).2.1 = false) : (w.add_item n q).1 = w := by
  by_cases h1 : q ≤ 0
  · simp [Warehouse.add_item, h1]
  · by_cases h2 : q > w.paljonko_mahtuu
    · simp [Warehouse.add_item, h1, h2]
    · simp [Warehouse.add_item, h1, h2] at h

theorem remove_item_fail_eq (w : Warehouse) (n : String) (oq : Option ℚ)
    (h : (w.remove_item n oq).2.1 = false) : (w.remove_item n oq).1 = w := by
  cases hl : lookupItem w.items n with
  | none => simp [Warehouse.remove_item, hl]
  | some current =>
      by_cases h1 : oq.getD current ≤ 0
      · simp [Warehouse.remove_item, hl, h1]
      · by_cases h2 : oq.getD current > current
        · simp [Warehouse.remove_item, hl, h1, h2]
        · simp [Warehouse.remove_item, hl, h1, h2] at h

theorem wf_add (w : Warehouse) (n : String) (q : ℚ) (h : WF w) :
    WF (w.add_item n q).1 := by
  rw [WF_def] at h
  obtain ⟨hnd, hpos, htot, h0, hcap⟩ := h
  by_cases h1 : q ≤ 0
  · simp only [Warehouse.add_item, if_pos h1]
    exact (WF_def w).mpr ⟨hnd, hpos, htot, h0, hcap⟩
  · by_cases h2 : q > w.paljonko_mahtuu
    · simp only [Warehouse.add_item, if_neg h1, if_pos h2]
      exact (WF_def w).mpr ⟨hnd, hpos, htot, h0, hcap⟩
    · have h1' : 0 < q := lt_of_not_le h1
      have h2' : q ≤ w.paljonko_mahtuu := not_lt.mp h2
      have hfree : q ≤ w.tilavuus - w.saldo := h2'
      have hs : lisaa_varastoon w.tilavuus w.saldo q = w.saldo + q := by
        rw [lisaa_varastoon, if_neg h1,
          if_neg (show ¬q > paljonko_mahtuu_ledger w.tilavuus w.saldo from h2)]
      simp only [Warehouse.add_item, if_neg h1, if_neg h2]
      rw [WF_def]
      refine ⟨?_, ?_, ?_, ?_, ?_⟩
      · exact nodup_upsert w.items n q hnd
      · exact allPos_upsert w.items n q hpos h1'
      · show itemsTotal (upsertItem w.items n q) = lisaa_varastoon w.tilavuus w.saldo q
        rw [itemsTotal_upsert, htot, hs]
      · show 0 ≤ lisaa_varastoon w.tilavuus w.saldo q
        rw [hs]
        linarith
      · show lisaa_varastoon w.tilavuus w.saldo q ≤ w.tilavuus
        rw [hs]
        linarith

theorem wf_remove (w : Warehouse) (n : String) (oq : Option ℚ) (h : WF w) :
    WF (w.remove_item n oq).1 := by
  rw [WF_def] at h
  obtain ⟨hnd, hpos, htot, h0, hcap⟩ := h
  cases hl : lookupItem w.items n with
  | none =>
      simp only [Warehouse.remove_item, hl]
      exact (WF_def w).mpr ⟨hnd, hpos, htot, h0, hcap⟩
  | some current =>
      by_cases h1 : oq.getD current ≤ 0
      · simp only [Warehouse.remove_item, hl, if_pos h1]
        exact (WF_def w).mpr ⟨hnd, hpos, htot, h0, hcap⟩
      · by_cases h2 : oq.getD current > current
        · simp only [Warehouse.remove_item, hl, if_neg h1, if_pos h2]
          exact (WF_def w).mpr ⟨hnd, hpos, htot, h0, hcap⟩
        · have h1' : 0 < oq.getD current := lt_of_not_le h1
          have h2' : oq.getD current ≤ current := not_lt.mp h2
          have hvle : current ≤ itemsTotal w.items :=
            lookup_le_total w.items n current hpos hl
          have hqs : oq.getD current ≤ w.saldo := htot ▸ le_trans h2' hvle
          have hrel : ota_varastosta w.saldo (oq.getD current)
              = w.saldo - oq.getD current := by
            rw [ota_varastosta, if_neg h1, if_neg (not_lt.mpr hqs)]
          simp only [Warehouse.remove_item, hl, if_neg h1, if_neg h2]
          rw [WF_def]
          refine ⟨?_, ?_, ?_, ?_, ?_⟩
          · exact nodup_removeQty w.items n _ hnd
          · exact allPos_removeQty w.items n _ current hpos hl h2'
          · show itemsTotal (removeQty w.items n (oq.getD current))
                = ota_varastosta w.saldo (oq.getD current)
            rw [itemsTotal_removeQty w.items n _ current hl, htot, hrel]
          · show 0 ≤ ota_varastosta w.saldo (oq.getD current)
            rw [hrel]
            linarith
          · show ota_varastosta w.saldo (oq.getD current) ≤ w.tilavuus
            rw [hrel]
            linarith

theorem reach_wf (w : Warehouse) (h : Reachable w) : WF w := by
  induction h with
  | init name tilavuus hpos =>
      rw [WF_def]
      refine ⟨?_, ?_, ?_, le_refl 0, le_of_lt hpos⟩
      · simp [itemKeys]
      · intro p hp
        simp at hp
      · rfl
  | add w n q _ ih => exact wf_add w n q ih
  | remove w n q _ ih => exact wf_remove w n q ih

/-! ### Claims -/

/-- C1: every warehouse state reachable from a freshly created warehouse by any
sequence of `add_item` and `remove_item` calls (successful or failed) satisfies
`sum(items.values()) == saldo`, maps every stored item to a strictly positive
quantity, and keeps `0 ≤ saldo ≤ tilavuus` (occupied within capacity). -/
theorem c1_reachable_invariant (w : Warehouse) (h : Reachable w) :
    itemsTotal w.items = w.saldo ∧ AllPos w.items ∧
      0 ≤ w.saldo ∧ w.saldo ≤ w.tilavuus := by
  obtain ⟨_, hpos, htot, h0, hcap⟩ := (WF_def w).mp (reach_wf w h)
  exact ⟨htot, hpos, h0, hcap⟩

/-- Witness for C1 at the state reached by creating a warehouse of capacity 100
and adding 30 units of "bolt". -/
theorem c1_reachable_invariant_witness :
    itemsTotal ((Warehouse.mk "w" 100 0 []).add_item "bolt" 30).1.items
        = ((Warehouse.mk "w" 100 0 []).add_item "bolt" 30).1.saldo ∧
      AllPos ((Warehouse.mk "w" 100 0 []).add_item "bolt" 30).1.items ∧
      0 ≤ ((Warehouse.mk "w" 100 0 []).add_item "bolt" 30).1.saldo ∧
      ((Warehouse.mk "w" 100 0 []).add_item "bolt" 30).1.saldo
        ≤ ((Warehouse.mk "w" 100 0 []).add_item "bolt" 30).1.tilavuus :=
  c1_reachable_invariant _
    (Reachable.add (Warehouse.mk "w" 100 0 []) "bolt" 30
      (Reachable.init "w" 100 (by norm_num)))

/-- C2: whenever `add_item` or `remove_item` fails (returns success `false`),
the returned warehouse state — items mapping, occupied amount, capacity and
name — is exactly the state before the call; no partial effect is applied. -/
theorem c2_failure_state_unchanged (w : Warehouse) (n : String) (q : ℚ)
    (oq : Option ℚ) :
    ((w.add_item n q).2.1 = false → (w.add_item n q).1 = w) ∧
      ((w.remove_item n oq).2.1 = false → (w.remove_item n oq).1 = w) :=
  ⟨add_item_fail_eq w n q, remove_item_fail_eq w n oq⟩

/-- Witness for C2: spec scenario 2 (`add_item("bolt", 80)` on occupied 30 of
100 fails and leaves the state unchanged) and scenario 4 (`remove_item("nail")`
with no "nail" entry fails and leaves the state unchanged). -/
theorem c2_failure_state_unchanged_witness :
    ((Warehouse.mk "w" 100 30 [("bolt", 30)]).add_item "bolt" 80).1
        = Warehouse.mk "w" 100 30 [("bolt", 30)] ∧
      ((Warehouse.mk "w" 100 30 [("bolt", 30)]).remove_item "nail" none).1
        = Warehouse.mk "w" 100 30 [("bolt", 30)] :=
  ⟨(c2_failure_state_unchanged (Warehouse.mk "w" 100 30 [("bolt", 30)]) "bolt" 80 none).1
      (by norm_num [Warehouse.add_item, Warehouse.paljonko_mahtuu, paljonko_mahtuu_ledger]),
   (c2_failure_state_unchanged (Warehouse.mk "w" 100 30 [("bolt", 30)]) "nail" 80 none).2
      (by norm_num [Warehouse.remove_item, lookupItem,
        (by decide : ("bolt" : String) ≠ "nail")])⟩

/-- C3: on any well-formed warehouse state (spec data-model invariants), for any
item name `X` and any quantity `q` with `0 < q` not exceeding the free space,
`add_item(X, q)` followed by `remove_item(X, q)` returns the warehouse to
exactly its prior state (in particular its prior items mapping and occupied
amount). -/
theorem c3_round_trip (w : Warehouse) (X : String) (q : ℚ) (hwf : WF w)
    (hq : 0 < q) (hfree : q ≤ w.paljonko_mahtuu) :
    ((w.add_item X q).1.remove_item X (some q)).1 = w := by
  obtain ⟨hnd, hpos, htot, h0, hcap⟩ := (WF_def w).mp hwf
  have h1 : ¬q ≤ 0 := not_le.mpr hq
  have h2 : ¬q > w.paljonko_mahtuu := not_lt.mpr hfree
  have hadd : (w.add_item X q).1
      = { w with saldo := lisaa_varastoon w.tilavuus w.saldo q,
                 items := upsertItem w.items X q } := by
    simp [Warehouse.add_item, h1, h2]
  have hsal : lisaa_varastoon w.tilavuus w.saldo q = w.saldo + q := by
    rw [lisaa_varastoon, if_neg h1,
      if_neg (show ¬q > paljonko_mahtuu_ledger w.tilavuus w.saldo from h2)]
  have hold : 0 ≤ (lookupItem w.items X).getD 0 := by
    cases hl : lookupItem w.items X with
    | none => simp
    | some v =>
        have := hpos (X, v) (lookupItem_mem w.items X v hl)
        simpa using le_of_lt this
  have hlook : lookupItem (upsertItem w.items X q) X
      = some ((lookupItem w.items X).getD 0 + q) := lookupItem_upsert_self w.items X q
  have h3 : ¬q > (lookupItem w.items X).getD 0 + q := by linarith
  have hrel : ota_varastosta (w.saldo + q) q = w.saldo := by
    rw [ota_varastosta, if_neg h1, if_neg (show ¬q > w.saldo + q by linarith)]
    ring
  have hcan : removeQty (upsertItem w.items X q) X q = w.items :=
    removeQty_upsert_cancel w.items X q (fun p hp => ne_of_gt (hpos p hp))
  rw [hadd, hsal]
  simp [Warehouse.remove_item, hlook, h1, h3, hrel, hcan]

/-- Witness for C3: adding 20 units of "nut" to a warehouse holding 30 of 100
and removing them again restores the exact prior state. -/
theorem c3_round_trip_witness :
    (((Warehouse.mk "w" 100 30 [("bolt", 30)]).add_item "nut" 20).1.remove_item "nut"
        (some 20)).1 = Warehouse.mk "w" 100 30 [("bolt", 30)] :=
  c3_round_trip (Warehouse.mk "w" 100 30 [("bolt", 30)]) "nut" 20
    (by norm_num [WF, AllPos, itemsTotal, itemKeys]) (by norm_num)
    (by norm_num [Warehouse.paljonko_mahtuu, paljonko_mahtuu_ledger])

/-- C4 counterexample: on a full warehouse — a reachable state with free space
exactly 0 — `add_item` with quantity equal to the current free space (0) does
NOT succeed: it fails the upfront `quantity <= 0` check (`InvalidArgument`,
message "Quantity must be positive"), refuting the claim as stated for every
warehouse state. -/
theorem c4_boundary_add_counterexample :
    Reachable (Warehouse.mk "w" 100 100 [("bolt", 100)]) ∧
      ((Warehouse.mk "w" 100 100 [("bolt", 100)]).add_item "bolt"
          (Warehouse.mk "w" 100 100 [("bolt", 100)]).paljonko_mahtuu).2.1 = false := by
  constructor
  · have h : ((Warehouse.mk "w" 100 0 []).add_item "bolt" 100).1
        = Warehouse.mk "w" 100 100 [("bolt", 100)] := by
      norm_num [Warehouse.add_item, Warehouse.paljonko_mahtuu, paljonko_mahtuu_ledger,
        lisaa_varastoon, upsertItem]
    exact h ▸ Reachable.add (Warehouse.mk "w" 100 0 []) "bolt" 100
      (Reachable.init "w" 100 (by norm_num))
  · norm_num [Warehouse.add_item, Warehouse.paljonko_mahtuu, paljonko_mahtuu_ledger]

/-- C4 (amended): for every warehouse state whose current free space is
strictly positive, `add_item` with quantity exactly the free space succeeds
and leaves `free_space() == 0`, while `add_item` with one unit more than the
free space fails with `CapacityExceeded` ("Not enough space in warehouse"). -/
theorem c4_boundary_add (w : Warehouse) (n : String) (h : 0 < w.paljonko_mahtuu) :
    (w.add_item n w.paljonko_mahtuu).2.1 = true ∧
      (w.add_item n w.paljonko_mahtuu).1.paljonko_mahtuu = 0 ∧
      (w.add_item n (w.paljonko_mahtuu + 1)).2
        = (false, some "Not enough space in warehouse") := by
  have h1 : ¬w.paljonko_mahtuu ≤ 0 := not_le.mpr h
  have h2 : ¬w.paljonko_mahtuu > w.paljonko_mahtuu := lt_irrefl _
  refine ⟨?_, ?_, ?_⟩
  · simp [Warehouse.add_item, h1, h2]
  · have hsal : lisaa_varastoon w.tilavuus w.saldo w.paljonko_mahtuu
        = w.saldo + w.paljonko_mahtuu := by
      rw [lisaa_varastoon, if_neg h1,
        if_neg (show ¬w.paljonko_mahtuu > paljonko_mahtuu_ledger w.tilavuus w.saldo from h2)]
    simp only [Warehouse.add_item, if_neg h1, if_neg h2]
    show w.tilavuus - lisaa_varastoon w.tilavuus w.saldo w.paljonko_mahtuu = 0
    rw [hsal]
    show w.tilavuus - (w.saldo + (w.tilavuus - w.saldo)) = 0
    ring
  · have h3 : ¬w.paljonko_mahtuu + 1 ≤ 0 := by
      have := h
      intro hle
      linarith
    have h4 : w.paljonko_mahtuu + 1 > w.paljonko_mahtuu := by linarith
    simp [Warehouse.add_item, h3, h4]

/-- Witness for the amended C4 at a warehouse holding 30 of 100 (free space
70 > 0). -/
theorem c4_boundary_add_witness :
    ((Warehouse.mk "w" 100 30 [("bolt", 30)]).add_item "nut"
        (Warehouse.mk "w" 100 30 [("bolt", 30)]).paljonko_mahtuu).2.1 = true ∧
      ((Warehouse.mk "w" 100 30 [("bolt", 30)]).add_item "nut"
          (Warehouse.mk "w" 100 30 [("bolt", 30)]).paljonko_mahtuu).1.paljonko_mahtuu = 0 ∧
      ((Warehouse.mk "w" 100 30 [("bolt", 30)]).add_item "nut"
          ((Warehouse.mk "w" 100 30 [("bolt", 30)]).paljonko_mahtuu + 1)).2
        = (false, some "Not enough space in warehouse") :=
  c4_boundary_add (Warehouse.mk "w" 100 30 [("bolt", 30)]) "nut"
    (by norm_num [Warehouse.paljonko_mahtuu, paljonko_mahtuu_ledger])

/-- C5: on any well-formed warehouse state, for any item name present in the
items mapping, `remove_item` with quantity exactly the item's current quantity
succeeds and deletes the key from the mapping, while `remove_item` with one
unit more fails with `InsufficientStock` ("Not enough items to remove"). -/
theorem c5_boundary_remove (w : Warehouse) (n : String) (v : ℚ) (hwf : WF w)
    (hl : lookupItem w.items n = some v) :
    (w.remove_item n (some v)).2.1 = true ∧
      lookupItem (w.remove_item n (some v)).1.items n = none ∧
      (w.remove_item n (some (v + 1))).2
        = (false, some "Not enough items to remove") := by
  obtain ⟨hnd, hpos, htot, h0, hcap⟩ := (WF_def w).mp hwf
  have hv : 0 < v := hpos (n, v) (lookupItem_mem w.items n v hl)
  have h1 : ¬v ≤ 0 := not_le.mpr hv
  have h2 : ¬v > v := lt_irrefl v
  refine ⟨?_, ?_, ?_⟩
  · simp [Warehouse.remove_item, hl, h1, h2]
  · simp only [Warehouse.remove_item, hl, Option.getD_some, if_neg h1, if_neg h2]
    show lookupItem (removeQty w.items n v) n = none
    exact lookup_removeQty_all w.items n v hnd hl
  · have h3 : ¬v + 1 ≤ 0 := by
      intro hle
      linarith
    have h4 : v + 1 > v := by linarith
    simp [Warehouse.remove_item, hl, h3, h4]

/-- Witness for C5 at a warehouse holding 30 units of "bolt". -/
theorem c5_boundary_remove_witness :
    ((Warehouse.mk "w" 100 30 [("bolt", 30)]).remove_item "bolt" (some 30)).2.1 = true ∧
      lookupItem ((Warehouse.mk "w" 100 30 [("bolt", 30)]).remove_item "bolt"
          (some 30)).1.items "bolt" = none ∧
      ((Warehouse.mk "w" 100 30 [("bolt", 30)]).remove_item "bolt" (some (30 + 1))).2
        = (false, some "Not enough items to remove") :=
  c5_boundary_remove (Warehouse.mk "w" 100 30 [("bolt", 30)]) "bolt" 30
    (by norm_num [WF, AllPos, itemsTotal, itemKeys]) (by norm_num [lookupItem])

/-- C6: on any well-formed warehouse state, for any item name present in the
items mapping, `remove_item` with unspecified quantity (`None`) succeeds,
decreases the occupied amount by exactly the item's stored quantity, and
deletes the key from the items mapping. -/
theorem c6_remove_all (w : Warehouse) (n : String) (v : ℚ) (hwf : WF w)
    (hl : lookupItem w.items n = some v) :
    (w.remove_item n none).2.1 = true ∧
      (w.remove_item n none).1.saldo = w.saldo - v ∧
      lookupItem (w.remove_item n none).1.items n = none := by
  obtain ⟨hnd, hpos, htot, h0, hcap⟩ := (WF_def w).mp hwf
  have hv : 0 < v := hpos (n, v) (lookupItem_mem w.items n v hl)
  have h1 : ¬v ≤ 0 := not_le.mpr hv
  have h2 : ¬v > v := lt_irrefl v
  have hvs : v ≤ w.saldo := htot ▸ lookup_le_total w.items n v hpos hl
  have hrel : ota_varastosta w.saldo v = w.saldo - v := by
    rw [ota_varastosta, if_neg h1, if_neg (not_lt.mpr hvs)]
  refine ⟨?_, ?_, ?_⟩
  · simp [Warehouse.remove_item, hl, h1, h2]
  · simp only [Warehouse.remove_item, hl, Option.getD_none, if_neg h1, if_neg h2]
    show ota_varastosta w.saldo v = w.saldo - v
    exact hrel
  · simp only [Warehouse.remove_item, hl, Option.getD_none, if_neg h1, if_neg h2]
    show lookupItem (removeQty w.items n v) n = none
    exact lookup_removeQty_all w.items n v hnd hl

/-- Witness for C6: spec scenario 6, `remove_item("bolt")` with `quantity=None`
after the warehouse holds 15 units of "bolt" removes all 15 units and deletes
the key. -/
theorem c6_remove_all_witness :
    ((Warehouse.mk "w" 100 15 [("bolt", 15)]).remove_item "bolt" none).2.1 = true ∧
      ((Warehouse.mk "w" 100 15 [("bolt", 15)]).remove_item "bolt" none).1.saldo
        = (Warehouse.mk "w" 100 15 [("bolt", 15)]).saldo - 15 ∧
      lookupItem ((Warehouse.mk "w" 100 15 [("bolt", 15)]).remove_item "bolt"
          none).1.items "bolt" = none :=
  c6_remove_all (Warehouse.mk "w" 100 15 [("bolt", 15)]) "bolt" 15
    (by norm_num [WF, AllPos, itemsTotal, itemKeys]) (by norm_num [lookupItem])

/-- C7: for every warehouse state and every quantity argument (`None`, zero,
negative or positive), `remove_item` on an item name absent from the items
mapping fails with `NotFound` ("Item not found") and leaves the state
unchanged; the absence check precedes any validation of the quantity, so the
result does not depend on the quantity argument at all. -/
theorem c7_not_found (w : Warehouse) (n : String) (oq : Option ℚ)
    (h : lookupItem w.items n = none) :
    w.remove_item n oq = (w, false, some "Item not found") := by
  simp [Warehouse.remove_item, h]

/-- Witness for C7: spec scenario 4, `remove_item("nail")` on a warehouse with
no "nail" entry, with a negative quantity argument. -/
theorem c7_not_found_witness :
    (Warehouse.mk "w" 100 30 [("bolt", 30)]).remove_item "nail" (some (-5))
      = (Warehouse.mk "w" 100 30 [("bolt", 30)], false, some "Item not found") :=
  c7_not_found (Warehouse.mk "w" 100 30 [("bolt", 30)]) "nail" (some (-5))
    (by norm_num [lookupItem, (by decide : ("bolt" : String) ≠ "nail")])

/-- C8: `get_space_left_percent` returns `0` when the capacity is `0` and
`(free_space() / capacity) * 100` otherwise; it agrees with the spec's formula
for every state, and — being embedded as a pure function of the state that
returns only a number — it has no side effects on the warehouse state. -/
theorem c8_space_left_percent (w : Warehouse) :
    w.get_space_left_percent = space_left_percent_spec w ∧
      (w.tilavuus = 0 → w.get_space_left_percent = 0) ∧
      (w.tilavuus ≠ 0 →
        w.get_space_left_percent = w.paljonko_mahtuu / w.tilavuus * 100) := by
  refine ⟨rfl, ?_, ?_⟩
  · intro h
    simp [Warehouse.get_space_left_percent, h]
  · intro h
    simp [Warehouse.get_space_left_percent, h]

/-- Witness for C8: a zero-capacity warehouse reports 0, and a warehouse
holding 30 of 100 reports its free-space percentage. -/
theorem c8_space_left_percent_witness :
    (Warehouse.mk "z" 0 0 []).get_space_left_percent = 0 ∧
      (Warehouse.mk "w" 100 30 [("bolt", 30)]).get_space_left_percent
        = (Warehouse.mk "w" 100 30 [("bolt", 30)]).paljonko_mahtuu
            / (Warehouse.mk "w" 100 30 [("bolt", 30)]).tilavuus * 100 :=
  ⟨(c8_space_left_percent (Warehouse.mk "z" 0 0 [])).2.1 (by norm_num),
   (c8_space_left_percent (Warehouse.mk "w" 100 30 [("bolt", 30)])).2.2 (by norm_num)⟩

/-- C9: on any warehouse state satisfying the positivity invariant (every
stored item has a strictly positive quantity), `remove_item(name, None)` on an
item present in the mapping always succeeds: the defaulted quantity equals the
stored quantity, which is positive, so neither the `InvalidArgument` nor the
`InsufficientStock` check can fire. -/
theorem c9_remove_none_succeeds (w : Warehouse) (n : String) (v : ℚ)
    (hpos : AllPos w.items) (hl : lookupItem w.items n = some v) :
    (w.remove_item n none).2.1 = true := by
  have hv : 0 < v := hpos (n, v) (lookupItem_mem w.items n v hl)
  have h1 : ¬v ≤ 0 := not_le.mpr hv
  have h2 : ¬v > v := lt_irrefl v
  simp [Warehouse.remove_item, hl, h1, h2]

/-- Witness for C9 at a warehouse holding 30 units of "bolt". -/
theorem c9_remove_none_succeeds_witness :
    ((Warehouse.mk "w" 100 30 [("bolt", 30)]).remove_item "bolt" none).2.1 = true :=
  c9_remove_none_succeeds (Warehouse.mk "w" 100 30 [("bolt", 30)]) "bolt" 30
    (by norm_num [AllPos]) (by norm_num [lookupItem])

/-- C10: `add_item(item_name, quantity)` fails exactly when `quantity ≤ 0` or
`quantity` exceeds the current free space; the item name is never validated, so
`add_item` with the empty string as item name succeeds whenever the quantity is
valid and stores the quantity under the empty-string key. -/
theorem c10_add_item_failure_iff (w : Warehouse) (n : String) (q : ℚ) :
    ((w.add_item n q).2.1 = false ↔ (q ≤ 0 ∨ q > w.paljonko_mahtuu)) ∧
      (0 < q → q ≤ w.paljonko_mahtuu →
        (w.add_item "" q).2.1 = true ∧
          lookupItem (w.add_item "" q).1.items ""
            = some ((lookupItem w.items "").getD 0 + q)) := by
  constructor
  · by_cases h1 : q ≤ 0
    · simp [Warehouse.add_item, h1]
    · by_cases h2 : q > w.paljonko_mahtuu
      · simp [Warehouse.add_item, h1, h2]
      · simp [Warehouse.add_item, h1, h2]
  · intro hq hfree
    have h1 : ¬q ≤ 0 := not_le.mpr hq
    have h2 : ¬q > w.paljonko_mahtuu := not_lt.mpr hfree
    refine ⟨by simp [Warehouse.add_item, h1, h2], ?_⟩
    simp only [Warehouse.add_item, if_neg h1, if_neg h2]
    show lookupItem (upsertItem w.items "" q) "" = _
    exact lookupItem_upsert_self w.items "" q

/-- Witness for C10: adding 20 units under the empty-string name to a warehouse
holding 30 of 100 succeeds and stores 20 under the key `""`; the failure
characterisation is instantiated at the same state. -/
theorem c10_add_item_failure_iff_witness :
    (((Warehouse.mk "w" 100 30 [("bolt", 30)]).add_item "" 20).2.1 = false
        ↔ ((20 : ℚ) ≤ 0 ∨ (20 : ℚ)
            > (Warehouse.mk "w" 100 30 [("bolt", 30)]).paljonko_mahtuu)) ∧
      (((Warehouse.mk "w" 100 30 [("bolt", 30)]).add_item "" 20).2.1 = true ∧
        lookupItem ((Warehouse.mk "w" 100 30 [("bolt", 30)]).add_item "" 20).1.items ""
          = some ((lookupItem (Warehouse.mk "w" 100 30 [("bolt", 30)]).items "").getD 0
              + 20)) :=
  ⟨(c10_add_item_failure_iff (Warehouse.mk "w" 100 30 [("bolt", 30)]) "" 20).1,
   (c10_add_item_failure_iff (Warehouse.mk "w" 100 30 [("bolt", 30)]) "" 20).2
     (by norm_num) (by norm_num [Warehouse.paljonko_mahtuu, paljonko_mahtuu_ledger])⟩

